import Mathlib

/-!
Verification development for the Pimple dependency-injection container
(src/index.js).

The JavaScript source is shallowly embedded. JS Map objects become
association lists that preserve insertion order (Map.set overwrites an
existing key in place and appends a new key at the end; Map.forEach
iterates in insertion order). JS arrays become lists, thrown exceptions
become Except, and numeric tag fields become integers. Array.prototype.sort
with a comparator is, per the ECMAScript specification, a stable sort; a
comparator whose sign is determined by a key function induces a total
preorder, under which the stable sorted output is unique, so it is
embedded as a structurally recursive stable insertion sort. Reference
identity of objects is modelled by a freshness counter handing out
reference numbers never used before.
-/

namespace Pimple

/-- A normalized tag payload: the mandatory name field plus the remaining
(numeric) fields of the plain object, kept as an association list. -/
structure Tag where
  name : String
  fields : List (String × Int)
deriving DecidableEq, Repr

/-- An argument of the tag method before normalization: a string, a plain
object (with or without a name field), an array (lodash isPlainObject is
false on arrays, even ones carrying a name field), or any other value. -/
inductive TagSpec where
  | str (s : String)
  | obj (name : Option String) (fields : List (String × Int))
  | arr (hasNameField : Bool)
  | other
deriving DecidableEq, Repr

/-- Error message thrown by normalizeTag (src/index.js line 15). -/
def tagShapeError : String :=
  "Service tags can be strings or plain objects with mandatory \"name\" field."

/-- Embeds normalizeTag (src/index.js lines 4-16): a string becomes a
one-field payload, a plain object must already carry a name field, and
every other value throws. -/
def normalizeTag : TagSpec → Except String Tag
  | .str s => .ok ⟨s, []⟩
  | .obj (some n) fs => .ok ⟨n, fs⟩
  | .obj none _ => .error tagShapeError
  | .arr _ => .error tagShapeError
  | .other => .error tagShapeError

/-- JS Map.set on an insertion-ordered association list: overwrite the
value in place when the key is present, append the entry otherwise. -/
def mapSet {α : Type} (m : List (String × α)) (k : String) (v : α) :
    List (String × α) :=
  match m with
  | [] => [(k, v)]
  | (k₁, v₁) :: rest =>
    if k₁ = k then (k, v) :: rest else (k₁, v₁) :: mapSet rest k v

/-- Per-tag-name store: serviceId mapped to the list of payloads pushed
for it, both in insertion order. -/
abbrev TagMap := List (String × List Tag)

/-- The container field holding all tags: tagName mapped to its TagMap. -/
abbrev TagStore := List (String × TagMap)

/-- Pure core of one iteration of the forEach inside tag (src/index.js
lines 145-163), after normalization succeeded: fetch or create the Map for
the tag name, fetch or create the payload list for the service, and push
the payload at the end of that list. -/
def applyTag (store : TagStore) (service : String) (t : Tag) : TagStore :=
  let tagged := (store.lookup t.name).getD []
  let tagsIn := (tagged.lookup service).getD []
  mapSet store t.name (mapSet tagged service (tagsIn ++ [t]))

/-- One call of tag with a single tagSpec (src/index.js lines 144-165):
normalize the spec, then record the payload. -/
def tagOne (store : TagStore) (service : String) (spec : TagSpec) :
    Except String TagStore :=
  (normalizeTag spec).map (applyTag store service)

/-- Repeated single-spec tag calls, applied in order; the first
normalization failure aborts. -/
def tagCalls (store : TagStore) (service : String) :
    List TagSpec → Except String TagStore
  | [] => .ok store
  | spec :: rest =>
    match tagOne store service spec with
    | .ok store₁ => tagCalls store₁ service rest
    | .error e => .error e

/-- getTag (src/index.js lines 172-174): the Map recorded for the tag
name, or an empty Map when the name was never used. -/
def getTag (store : TagStore) (tagName : String) : TagMap :=
  (store.lookup tagName).getD []

/-- The payload list visible through getTag for one (tagName, service)
pair. -/
def lookupTags (store : TagStore) (tagName service : String) : List Tag :=
  ((getTag store tagName).lookup service).getD []

/-- Value of field f of a payload, defaulting to 0 when the field is
absent (the lodash get calls, src/index.js lines 219-220). -/
def tagField (t : Tag) (f : String) : Int :=
  (t.fields.lookup f).getD 0

/-- The flattened (serviceId, payload) pair list built by the sorted
branch of overTags before sorting (src/index.js lines 211-216): services
in Map insertion order, then payloads in push order. -/
def flattenTagMap (m : TagMap) : List (String × Tag) :=
  m.flatMap (fun p => p.2.map (fun t => (p.1, t)))

/-- The three-way comparator the sorted branch of overTags passes to
Array.prototype.sort (src/index.js lines 218-226). -/
def sortCmp (field : String) (order : Int) (a b : String × Tag) : Int :=
  let v1 := tagField a.2 field
  let v2 := tagField b.2 field
  if v1 < v2 then -1 * order
  else if v1 > v2 then 1 * order
  else 0

/-- Stable insertion of x in front of the first element y with le x y. -/
def orderedInsert {α : Type} (le : α → α → Bool) (x : α) : List α → List α
  | [] => [x]
  | y :: ys => if le x y then x :: y :: ys else y :: orderedInsert le x ys

/-- Stable sort: the unique stable ordering under a total preorder, which
is what Array.prototype.sort produces for a key-based comparator. -/
def stableSort {α : Type} (le : α → α → Bool) : List α → List α
  | [] => []
  | x :: xs => orderedInsert le x (stableSort le xs)

/-- Visitation order of the sorted branch of overTags (src/index.js lines
210-227): flatten the tag Map into (serviceId, payload) pairs, then
stable-sort them with the comparator, keeping a pair a before b whenever
the comparator does not order it strictly after b. -/
def overTagsVisit (store : TagStore) (tagName field : String) (order : Int) :
    List (String × Tag) :=
  stableSort (fun a b => decide (sortCmp field order a b ≤ 0))
    (flattenTagMap (getTag store tagName))

/-- The tag store of the ordering scenario: services a, b, c tagged t with
order fields 30, 20 and 10 respectively, in that call order. -/
def orderingStore : TagStore :=
  applyTag
    (applyTag (applyTag [] "a" ⟨"t", [("order", 30)]⟩)
      "b" ⟨"t", [("order", 20)]⟩)
    "c" ⟨"t", [("order", 10)]⟩

/-- JS values as far as the setRaw guard needs them: primitives and
objects, an object knowing whether it was constructed by Definition. -/
inductive JsVal where
  | jsBool (b : Bool)
  | jsNum (n : Int)
  | jsStr (s : String)
  | jsNull
  | jsUndefined
  | jsObject (isDefinitionInstance : Bool)
deriving DecidableEq, Repr

/-- JS truthiness of the modelled values. -/
def truthy : JsVal → Bool
  | .jsBool b => b
  | .jsNum n => n != 0
  | .jsStr s => s != ""
  | .jsNull => false
  | .jsUndefined => false
  | .jsObject _ => true

/-- JS unary negation: always a boolean primitive. -/
def jsNot (v : JsVal) : JsVal := .jsBool (!truthy v)

/-- JS instanceof Definition on the modelled values: true exactly for
objects constructed by Definition. A boolean primitive is never an
instance of anything. -/
def instanceOfDefinition : JsVal → Bool
  | .jsObject isDef => isDef
  | _ => false

/-- The guard of setRaw (src/index.js line 82). In JavaScript unary
negation binds tighter than instanceof, so the source condition written as
negation of definition, then instanceof Definition, first coerces the
argument to a boolean primitive and then asks whether that boolean is a
Definition instance. -/
def setRawGuardFires (definition : JsVal) : Bool :=
  instanceOfDefinition (jsNot definition)

/-- State of one compiled resolver: the memoized value installed by the
once wrapper (None while never invoked), how many times the inner resolver
ran, and the sequence of label-callback invocations so far. The instance
produced by run number k is modelled as the reference number k, so
distinct inner runs may yield distinct references. -/
structure ResolveState where
  memo : Option Nat
  innerRuns : Nat
  labelCalls : List String
deriving DecidableEq, Repr

/-- Fresh resolver state at compile time. -/
def initResolveState : ResolveState := ⟨none, 0, []⟩

/-- One run of the label-invoking wrapper built by Definition.wrap
(src/index.js lines 350-356): run the inner resolver, then invoke the
callback of every attached label, in insertion order of the labels Set. -/
def runWrapped (labels : List String) (st : ResolveState) :
    Nat × ResolveState :=
  (st.innerRuns,
   { st with innerRuns := st.innerRuns + 1,
             labelCalls := st.labelCalls ++ labels })

/-- One get of a shared service: the wrapped resolver behind the lodash
once memoization (src/index.js lines 358-360). A cached value is returned
with no recomputation and no label invocation; otherwise the wrapped
resolver runs once and its result is cached permanently. -/
def getShared (labels : List String) (st : ResolveState) :
    Nat × ResolveState :=
  match st.memo with
  | some v => (v, st)
  | none =>
    let (v, st₁) := runWrapped labels st
    (v, { st₁ with memo := some v })

/-- n successive get calls of a shared service, collecting the returned
references. -/
def getSharedN (labels : List String) : Nat → ResolveState → List Nat × ResolveState
  | 0, st => ([], st)
  | n + 1, st =>
    let (v, st₁) := getShared labels st
    let (vs, st₂) := getSharedN labels n st₁
    (v :: vs, st₂)

/-- Definition.label and the labels field (src/index.js lines 292 and
324-330): a JS Set keeps insertion order and ignores re-insertion of an
element already present. -/
def labelAdd (labels : List String) (name : String) : List String :=
  if name ∈ labels then labels else labels ++ [name]

/-- An object value: its reference number and its (deep) content. -/
structure ObjVal where
  ref : Nat
  content : List (String × Int)
deriving DecidableEq, Repr

/-- Lodash cloneDeep: same deep content under a reference never handed out
before; the counter is advanced past it. -/
def cloneDeep (o : ObjVal) (alloc : Nat) : ObjVal × Nat :=
  (⟨alloc, o.content⟩, alloc + 1)

/-- One get of a non-shared object-valued service under the default
deep-clone configuration: the createResolver object branch (src/index.js
lines 375-379) returns a fresh deep copy of the raw object on every
call. -/
def transientObjGet (raw : ObjVal) (alloc : Nat) : ObjVal × Nat :=
  cloneDeep raw alloc

/-- n successive get calls of a non-shared object-valued service,
collecting the returned copies. -/
def transientObjGetN (raw : ObjVal) : Nat → Nat → List ObjVal × Nat
  | 0, alloc => ([], alloc)
  | n + 1, alloc =>
    let (o, alloc₁) := transientObjGet raw alloc
    let (os, alloc₂) := transientObjGetN raw n alloc₁
    (o :: os, alloc₂)

/-- One factory argument as seen by Definition.arguments: either a plain
value, or a nested Definition (carrying an identifying number and the
value its resolver yields). -/
inductive ArgSpec where
  | plain (v : Int)
  | defn (id : Nat) (v : Int)
deriving DecidableEq, Repr

/-- Trace of nested-Definition resolver invocations, in order. -/
structure ArgTrace where
  nestedCalls : List Nat
deriving DecidableEq, Repr

/-- Resolution of one argument (src/index.js lines 342-344): an argument
that is a Definition is resolved now, recording the invocation; anything
else passes through unchanged. -/
def resolveArg : ArgSpec → ArgTrace → Int × ArgTrace
  | .plain v, tr => (v, tr)
  | .defn i v, tr => (v, ⟨tr.nestedCalls ++ [i]⟩)

/-- Definition.arguments (src/index.js lines 341-345): map over args left
to right, resolving each nested Definition now. -/
def argumentsEval : List ArgSpec → ArgTrace → List Int × ArgTrace
  | [], tr => ([], tr)
  | a :: rest, tr =>
    let (v, tr₁) := resolveArg a tr
    let (vs, tr₂) := argumentsEval rest tr₁
    (v :: vs, tr₂)

/-- The factory after lodash bind: the context-bound function together
with the argument values that were resolved at bind time. -/
structure BoundFactory where
  boundArgs : List Int
deriving DecidableEq, Repr

/-- The createResolver function branch (src/index.js lines 371-372): bind
the factory with its arguments resolved once, now, at compile time. -/
def compileFactory (args : List ArgSpec) (tr : ArgTrace) :
    BoundFactory × ArgTrace :=
  let (vs, tr₁) := argumentsEval args tr
  (⟨vs⟩, tr₁)

/-- Invoking the bound factory on a later get: the stored argument values
are used as-is and no argument is re-resolved. -/
def invokeBound (f : BoundFactory) (tr : ArgTrace) : List Int × ArgTrace :=
  (f.boundArgs, tr)

/-- n successive get calls of the compiled factory service. -/
def invokeBoundN (f : BoundFactory) : Nat → ArgTrace → List (List Int) × ArgTrace
  | 0, tr => ([], tr)
  | n + 1, tr =>
    let (v, tr₁) := invokeBound f tr
    let (vs, tr₂) := invokeBoundN f n tr₁
    (v :: vs, tr₂)

/-- The identifying numbers of the nested-Definition arguments, one entry
per argument position. -/
def defnIds (args : List ArgSpec) : List Nat :=
  args.filterMap (fun a =>
    match a with
    | .defn i _ => some i
    | .plain _ => none)

/-- The fields of a stored Definition that the container-level operations
consult: its attached label names (a Set, kept as an insertion-ordered
duplicate-free list) and the value its compiled resolver yields. -/
structure DefnM where
  labels : List String
  value : Int
deriving DecidableEq, Repr

/-- Container state: the definitions Map and the tags store. -/
structure CState where
  defs : List (String × DefnM)
  tags : TagStore
deriving DecidableEq, Repr

/-- Error message thrown by getDefinition (src/index.js line 69). -/
def svcNotDefined (serviceId : String) : String :=
  "Service with name " ++ serviceId ++ " is not defined in container."

/-- getDefinition (src/index.js lines 65-73): look the id up in the
definitions Map and throw when it is absent (stored Definitions are
objects, hence truthy, so the falsiness test fires exactly on a missed
lookup). -/
def getDefinition (c : CState) (serviceId : String) : Except String DefnM :=
  match c.defs.lookup serviceId with
  | some d => .ok d
  | none => .error (svcNotDefined serviceId)

/-- get (src/index.js lines 38-40): look the Definition up, then invoke
its compiled resolver; for the simple value definitions modelled here the
resolver yields the stored value. -/
def getService (c : CState) (serviceId : String) : Except String Int :=
  (getDefinition c serviceId).map (fun d => d.value)

/-- getResolver (src/index.js lines 46-48): the resolve function itself,
not invoked. -/
def getResolver (c : CState) (serviceId : String) :
    Except String (Unit → Int) :=
  (getDefinition c serviceId).map (fun d _ => d.value)

/-- addLabel (src/index.js lines 253-257): getDefinition first (throwing
on an unknown id), then add the label name to the labels Set of the
Definition. -/
def addLabel (c : CState) (serviceId label : String) : Except String CState :=
  (getDefinition c serviceId).map
    (fun d => ⟨mapSet c.defs serviceId ⟨labelAdd d.labels label, d.value⟩, c.tags⟩)

/-- tag at the container level (src/index.js lines 144-165): only the tags
store is consulted and updated; the definitions Map is never read. -/
def tagService (c : CState) (serviceId : String) (spec : TagSpec) :
    Except String CState :=
  (tagOne c.tags serviceId spec).map (fun ts => ⟨c.defs, ts⟩)

/-! Helper lemmas about the Map embedding, the stable sort, and the
instrumented resolution models. -/

theorem lookup_mapSet_self {α : Type} (m : List (String × α)) (k : String) (v : α) :
    (mapSet m k v).lookup k = some v := by
  induction m with
  | nil => simp [mapSet, List.lookup]
  | cons p rest ih =>
    obtain ⟨k₁, v₁⟩ := p
    by_cases h : k₁ = k
    · simp [mapSet, h, List.lookup]
    · simp only [mapSet, if_neg h, List.lookup]
      have hne : (k == k₁) = false := by
        simp [beq_eq_false_iff_ne]
        exact fun hk => h hk.symm
      simp [hne, ih]

theorem lookupTags_applyTag (store : TagStore) (sid : String) (t : Tag) :
    lookupTags (applyTag store sid t) t.name sid =
      lookupTags store t.name sid ++ [t] := by
  simp [lookupTags, getTag, applyTag, lookup_mapSet_self]

theorem orderedInsert_perm {α : Type} (le : α → α → Bool) (x : α) (l : List α) :
    List.Perm (orderedInsert le x l) (x :: l) := by
  induction l with
  | nil => simp [orderedInsert]
  | cons y ys ih =>
    by_cases h : le x y = true
    · simp [orderedInsert, h]
    · simp only [orderedInsert, h, if_false, Bool.false_eq_true]
      exact (ih.cons y).trans (List.Perm.swap x y ys)

theorem stableSort_perm {α : Type} (le : α → α → Bool) (l : List α) :
    List.Perm (stableSort le l) l := by
  induction l with
  | nil => simp [stableSort]
  | cons x xs ih =>
    exact (orderedInsert_perm le x (stableSort le xs)).trans (ih.cons x)

theorem pairwise_orderedInsert {α : Type} (le : α → α → Bool)
    (htrans : ∀ a b c, le a b = true → le b c = true → le a c = true)
    (htot : ∀ a b, le a b = true ∨ le b a = true)
    (x : α) (l : List α) (hl : l.Pairwise (fun a b => le a b = true)) :
    (orderedInsert le x l).Pairwise (fun a b => le a b = true) := by
  induction l with
  | nil => simp [orderedInsert]
  | cons y ys ih =>
    rcases List.pairwise_cons.mp hl with ⟨hy, hys⟩
    by_cases h : le x y = true
    · simp only [orderedInsert, h, if_true]
      refine List.pairwise_cons.mpr ⟨?_, hl⟩
      intro z hz
      rcases List.mem_cons.mp hz with rfl | hz₂
      · exact h
      · exact htrans x y z h (hy z hz₂)
    · simp only [orderedInsert, h, if_false, Bool.false_eq_true]
      refine List.pairwise_cons.mpr ⟨?_, ih hys⟩
      intro z hz
      have hz₁ : z ∈ x :: ys := (orderedInsert_perm le x ys).mem_iff.mp hz
      rcases List.mem_cons.mp hz₁ with rfl | hz₂
      · exact (htot z y).resolve_left h
      · exact hy z hz₂

theorem pairwise_stableSort {α : Type} (le : α → α → Bool)
    (htrans : ∀ a b c, le a b = true → le b c = true → le a c = true)
    (htot : ∀ a b, le a b = true ∨ le b a = true)
    (l : List α) :
    (stableSort le l).Pairwise (fun a b => le a b = true) := by
  induction l with
  | nil => simp [stableSort]
  | cons x xs ih => exact pairwise_orderedInsert le htrans htot x _ ih

theorem stableSort_congr {α : Type} (le₁ le₂ : α → α → Bool)
    (h : ∀ a b, le₁ a b = le₂ a b) (l : List α) :
    stableSort le₁ l = stableSort le₂ l := by
  have hfun : le₁ = le₂ := funext fun a => funext fun b => h a b
  rw [hfun]

theorem sortCmp_neg_one (f : String) (a b : String × Tag) :
    (sortCmp f (-1) a b ≤ 0) ↔ (tagField b.2 f ≤ tagField a.2 f) := by
  simp only [sortCmp]
  split_ifs with h₁ h₂ <;> omega

theorem sortCmp_pos_one (f : String) (a b : String × Tag) :
    (sortCmp f 1 a b ≤ 0) ↔ (tagField a.2 f ≤ tagField b.2 f) := by
  simp only [sortCmp]
  split_ifs with h₁ h₂ <;> omega

theorem getSharedN_memoized (labels : List String) (n : Nat) (st : ResolveState)
    (v : Nat) (h : st.memo = some v) :
    getSharedN labels n st = (List.replicate n v, st) := by
  induction n with
  | zero => simp [getSharedN]
  | succ m ih => simp [getSharedN, getShared, h, ih, List.replicate_succ]

theorem transientObjGetN_closed (raw : ObjVal) (n alloc : Nat) :
    transientObjGetN raw n alloc =
      ((List.range n).map (fun i => ⟨alloc + i, raw.content⟩), alloc + n) := by
  induction n generalizing alloc with
  | zero => simp [transientObjGetN]
  | succ m ih =>
    simp only [transientObjGetN, transientObjGet, cloneDeep, ih (alloc + 1)]
    refine Prod.ext ?_ (by omega)
    simp only [List.range_succ_eq_map, List.map_cons, List.map_map]
    refine congrArg₂ List.cons (by simp) ?_
    refine List.map_congr_left fun i _ => ?_
    simp only [Function.comp_apply, ObjVal.mk.injEq, and_true]
    omega

theorem argumentsEval_trace (args : List ArgSpec) (tr : ArgTrace) :
    (argumentsEval args tr).2.nestedCalls = tr.nestedCalls ++ defnIds args := by
  induction args generalizing tr with
  | nil => simp [argumentsEval, defnIds]
  | cons a rest ih =>
    cases a with
    | plain v => simp [argumentsEval, resolveArg, ih, defnIds]
    | defn i v => simp [argumentsEval, resolveArg, ih, defnIds]

theorem invokeBoundN_trace (f : BoundFactory) (n : Nat) (tr : ArgTrace) :
    (invokeBoundN f n tr).2 = tr := by
  induction n generalizing tr with
  | zero => rfl
  | succ m ih => simp [invokeBoundN, invokeBound, ih]

theorem invokeBoundN_outs (f : BoundFactory) (n : Nat) (tr : ArgTrace) :
    (invokeBoundN f n tr).1 = List.replicate n f.boundArgs := by
  induction n generalizing tr with
  | zero => rfl
  | succ m ih => simp [invokeBoundN, invokeBound, ih, List.replicate_succ]

/-! Claim theorems. -/

/-- C1 counterexample: on services a, b, c tagged t with order fields 30,
20 and 10 (in that tagging order), the sorted branch of overTags with
order equal to negative one visits a (field value 30) first and c (field
value 10) last, which is the descending visitation order, not the
ascending order the claim states. -/
theorem overTags_neg_one_not_ascending_cex :
    overTagsVisit orderingStore "t" "order" (-1) =
      [("a", ⟨"t", [("order", 30)]⟩), ("b", ⟨"t", [("order", 20)]⟩),
       ("c", ⟨"t", [("order", 10)]⟩)] ∧
    overTagsVisit orderingStore "t" "order" (-1) ≠
      [("c", ⟨"t", [("order", 10)]⟩), ("b", ⟨"t", [("order", 20)]⟩),
       ("a", ⟨"t", [("order", 30)]⟩)] := by
  constructor
  · decide
  · decide

/-- C1 (amended): for every tag store, tag name and field, the sorted
branch of overTags flattens the (serviceId, payload) pairs (services in
insertion order, payloads in push order) and stable-sorts them by the
numeric value of the field, defaulting to 0 where absent; order equal to
negative one yields descending-by-field-value visitation and order equal
to one yields ascending, ties preserving the original tagging order. The
visitation is stated as equal to the stable sort keyed descending
respectively ascending, and additionally shown to be a permutation of the
flattened pairs that is pairwise descending respectively ascending. -/
theorem overTags_sorted_order_semantics (store : TagStore) (tagName f : String) :
    (overTagsVisit store tagName f (-1) =
        stableSort (fun a b => decide (tagField b.2 f ≤ tagField a.2 f))
          (flattenTagMap (getTag store tagName)) ∧
      List.Perm (overTagsVisit store tagName f (-1))
        (flattenTagMap (getTag store tagName)) ∧
      (overTagsVisit store tagName f (-1)).Pairwise
        (fun a b => tagField b.2 f ≤ tagField a.2 f)) ∧
    (overTagsVisit store tagName f 1 =
        stableSort (fun a b => decide (tagField a.2 f ≤ tagField b.2 f))
          (flattenTagMap (getTag store tagName)) ∧
      List.Perm (overTagsVisit store tagName f 1)
        (flattenTagMap (getTag store tagName)) ∧
      (overTagsVisit store tagName f 1).Pairwise
        (fun a b => tagField a.2 f ≤ tagField b.2 f)) := by
  have hdesc : overTagsVisit store tagName f (-1) =
      stableSort (fun a b => decide (tagField b.2 f ≤ tagField a.2 f))
        (flattenTagMap (getTag store tagName)) := by
    refine stableSort_congr _ _ (fun a b => ?_) _
    rw [decide_eq_decide]
    exact sortCmp_neg_one f a b
  have hasc : overTagsVisit store tagName f 1 =
      stableSort (fun a b => decide (tagField a.2 f ≤ tagField b.2 f))
        (flattenTagMap (getTag store tagName)) := by
    refine stableSort_congr _ _ (fun a b => ?_) _
    rw [decide_eq_decide]
    exact sortCmp_pos_one f a b
  refine ⟨⟨hdesc, ?_, ?_⟩, hasc, ?_, ?_⟩
  · rw [hdesc]; exact stableSort_perm _ _
  · rw [hdesc]
    have := pairwise_stableSort
      (fun a b : String × Tag => decide (tagField b.2 f ≤ tagField a.2 f))
      (fun a b c hab hbc => by
        simp only [decide_eq_true_eq] at *; omega)
      (fun a b => by
        simp only [decide_eq_true_eq]; omega)
      (flattenTagMap (getTag store tagName))
    exact this.imp (fun h => by simpa using h)
  · rw [hasc]; exact stableSort_perm _ _
  · rw [hasc]
    have := pairwise_stableSort
      (fun a b : String × Tag => decide (tagField a.2 f ≤ tagField b.2 f))
      (fun a b c hab hbc => by
        simp only [decide_eq_true_eq] at *; omega)
      (fun a b => by
        simp only [decide_eq_true_eq]; omega)
      (flattenTagMap (getTag store tagName))
    exact this.imp (fun h => by simpa using h)

/-- C2 (code evidence): the guard of setRaw never fires, for any argument
whatsoever. In the source the condition negates the argument first and
then asks whether the resulting boolean primitive is an instance of
Definition, which is false for every argument, so the raw-definition error
is unreachable: calling setRaw with a non-Definition argument does not
raise it, contradicting the documented intent of the guard. -/
theorem setRaw_guard_never_fires : ∀ v : JsVal, setRawGuardFires v = false := by
  intro v
  cases v <;> rfl

/-- C3: for a shared service, every one of n get calls returns the
identical reference (the one produced by the single inner-resolver run),
the inner resolver runs exactly once, and each label attached before the
first resolution has its callback executed exactly once across all the
calls. -/
theorem shared_get_memoized (labels : List String) (n : Nat) (hn : 1 ≤ n)
    (hnd : labels.Nodup) :
    (getSharedN labels n initResolveState).1 = List.replicate n 0 ∧
    (getSharedN labels n initResolveState).2.innerRuns = 1 ∧
    (getSharedN labels n initResolveState).2.labelCalls = labels ∧
    ∀ l ∈ labels,
      (getSharedN labels n initResolveState).2.labelCalls.count l = 1 := by
  obtain ⟨m, rfl⟩ : ∃ m, n = m + 1 := ⟨n - 1, by omega⟩
  have hstep : getShared labels initResolveState =
      (0, ⟨some 0, 1, labels⟩) := by
    simp [getShared, initResolveState, runWrapped]
  have hrun : getSharedN labels (m + 1) initResolveState =
      (0 :: List.replicate m 0, ⟨some 0, 1, labels⟩) := by
    simp [getSharedN, hstep, getSharedN_memoized labels m ⟨some 0, 1, labels⟩ 0 rfl]
  rw [hrun]
  refine ⟨by simp [List.replicate_succ], rfl, rfl, fun l hl => ?_⟩
  exact List.count_eq_one_of_mem hnd hl

/-- C3 witness: three get calls of a shared service carrying one label. -/
theorem shared_get_memoized_witness :
    1 ≤ 3 ∧ (["lab"] : List String).Nodup ∧
    ((getSharedN ["lab"] 3 initResolveState).1 = List.replicate 3 0 ∧
     (getSharedN ["lab"] 3 initResolveState).2.innerRuns = 1 ∧
     (getSharedN ["lab"] 3 initResolveState).2.labelCalls = ["lab"] ∧
     ∀ l ∈ (["lab"] : List String),
       (getSharedN ["lab"] 3 initResolveState).2.labelCalls.count l = 1) :=
  ⟨by decide, by decide, shared_get_memoized ["lab"] 3 (by decide) (by decide)⟩

/-- C4: for a non-shared object-valued service under the default
deep-clone configuration, every one of n get calls returns a copy that is
deeply equal to the raw specification (same content) but not identical to
it (a reference the allocator had not handed out before the raw object),
and distinct get calls return copies not identical to each other. -/
theorem transient_object_get_fresh_copies (raw : ObjVal) (n alloc : Nat)
    (h : raw.ref < alloc) :
    (∀ o ∈ (transientObjGetN raw n alloc).1,
        o.content = raw.content ∧ o.ref ≠ raw.ref) ∧
    ((transientObjGetN raw n alloc).1).Pairwise
      (fun o₁ o₂ => o₁.ref ≠ o₂.ref) := by
  have hclosed := transientObjGetN_closed raw n alloc
  constructor
  · intro o ho
    rw [hclosed] at ho
    simp only [List.mem_map, List.mem_range] at ho
    obtain ⟨i, hi, rfl⟩ := ho
    exact ⟨rfl, by simp only []; omega⟩
  · rw [hclosed]
    refine List.pairwise_map.mpr ?_
    refine (List.pairwise_lt_range n).imp (fun hij => ?_)
    simp only [ne_eq, ObjVal.mk.injEq]
    omega

/-- C4 witness: two get calls of a non-shared object service whose raw
object has reference 0, the allocator starting past it. -/
theorem transient_object_get_fresh_copies_witness :
    (⟨0, [("k", 1)]⟩ : ObjVal).ref < 1 ∧
    ((∀ o ∈ (transientObjGetN ⟨0, [("k", 1)]⟩ 2 1).1,
        o.content = (⟨0, [("k", 1)]⟩ : ObjVal).content ∧
        o.ref ≠ (⟨0, [("k", 1)]⟩ : ObjVal).ref) ∧
     ((transientObjGetN ⟨0, [("k", 1)]⟩ 2 1).1).Pairwise
       (fun o₁ o₂ => o₁.ref ≠ o₂.ref)) :=
  ⟨by decide, transient_object_get_fresh_copies ⟨0, [("k", 1)]⟩ 2 1 (by decide)⟩

/-- C5: compiling a factory definition resolves its arguments exactly once
at bind time (every nested Definition argument has its resolver invoked
exactly once, in argument order, during compile), and n subsequent get
calls of the compiled service re-invoke no nested resolver and each return
the factory output over the argument values resolved at compile time. -/
theorem factory_args_resolved_once_at_compile (args : List ArgSpec) (n : Nat) :
    (compileFactory args ⟨[]⟩).2.nestedCalls = defnIds args ∧
    (invokeBoundN (compileFactory args ⟨[]⟩).1 n
        (compileFactory args ⟨[]⟩).2).2.nestedCalls = defnIds args ∧
    (invokeBoundN (compileFactory args ⟨[]⟩).1 n
        (compileFactory args ⟨[]⟩).2).1 =
      List.replicate n (argumentsEval args ⟨[]⟩).1 := by
  have htrace : (compileFactory args ⟨[]⟩).2.nestedCalls = defnIds args := by
    simp [compileFactory, argumentsEval_trace]
  refine ⟨htrace, ?_, ?_⟩
  · rw [invokeBoundN_trace]
    exact htrace
  · rw [invokeBoundN_outs]
    simp [compileFactory]

/-- C6: for a service id never registered, get, getDefinition, getResolver
and addLabel all raise the service-not-defined error instead of returning
a default or null value. -/
theorem unknown_service_errors (c : CState) (sid : String)
    (h : c.defs.lookup sid = none) (l : String) :
    getService c sid = .error (svcNotDefined sid) ∧
    getDefinition c sid = .error (svcNotDefined sid) ∧
    getResolver c sid = .error (svcNotDefined sid) ∧
    addLabel c sid l = .error (svcNotDefined sid) := by
  simp [getService, getDefinition, getResolver, addLabel, h, Except.map]

/-- C6 witness: an empty container and an unregistered id. -/
theorem unknown_service_errors_witness :
    ((⟨[], []⟩ : CState).defs.lookup "missing" = none) ∧
    (getService ⟨[], []⟩ "missing" = .error (svcNotDefined "missing") ∧
     getDefinition ⟨[], []⟩ "missing" = .error (svcNotDefined "missing") ∧
     getResolver ⟨[], []⟩ "missing" = .error (svcNotDefined "missing") ∧
     addLabel ⟨[], []⟩ "missing" "lab" = .error (svcNotDefined "missing")) :=
  ⟨rfl, unknown_service_errors ⟨[], []⟩ "missing" rfl "lab"⟩

/-- C7: a bare string normalizes to the payload holding just that name; a
plain object already carrying a name field is kept as-is; a plain object
without a name field, an array (even one with a name field, since lodash
isPlainObject rejects arrays) and any other value make tag throw the
invalid-tag-shape error. -/
theorem normalizeTag_shapes (s nm : String) (fs : List (String × Int))
    (b : Bool) (store : TagStore) (sid : String) :
    normalizeTag (TagSpec.str s) = .ok ⟨s, []⟩ ∧
    normalizeTag (TagSpec.obj (some nm) fs) = .ok ⟨nm, fs⟩ ∧
    tagOne store sid (TagSpec.obj none fs) = .error tagShapeError ∧
    tagOne store sid (TagSpec.arr b) = .error tagShapeError ∧
    tagOne store sid TagSpec.other = .error tagShapeError :=
  ⟨rfl, rfl, rfl, rfl, rfl⟩

/-- C8: tagging the same service id under the same tag name once per call,
n times, succeeds and leaves for that id, in the list getTag exposes,
exactly the n payloads as distinct entries in call order, appended after
whatever was there before; equal payloads stay separate entries. -/
theorem tag_repeated_appends_entries (store : TagStore) (sid tagName : String)
    (fss : List (List (String × Int))) :
    ∃ store₁,
      tagCalls store sid
          (fss.map (fun fs => TagSpec.obj (some tagName) fs)) = .ok store₁ ∧
      lookupTags store₁ tagName sid =
        lookupTags store tagName sid ++ fss.map (fun fs => Tag.mk tagName fs) := by
  induction fss generalizing store with
  | nil => exact ⟨store, rfl, by simp⟩
  | cons fs rest ih =>
    obtain ⟨store₁, hok, hlook⟩ := ih (applyTag store sid ⟨tagName, fs⟩)
    refine ⟨store₁, ?_, ?_⟩
    · simpa [tagCalls, tagOne, normalizeTag] using hok
    · rw [hlook,
        show lookupTags (applyTag store sid ⟨tagName, fs⟩) tagName sid =
            lookupTags store tagName sid ++ [⟨tagName, fs⟩] from
          lookupTags_applyTag store sid ⟨tagName, fs⟩]
      simp

/-- C9: attaching the same label name twice leaves the labels Set exactly
as attaching it once, so one resolution invokes its callback exactly once
more than before; attaching two distinct fresh label names invokes both on
a resolution, in attachment order, after the previously attached ones. -/
theorem label_attach_semantics (ls : List String) (a b : String)
    (st : ResolveState) (ha : a ∉ ls) (hb : b ∉ ls) (hab : a ≠ b) :
    labelAdd (labelAdd ls a) a = labelAdd ls a ∧
    (runWrapped (labelAdd (labelAdd ls a) a) st).2.labelCalls.count a =
      st.labelCalls.count a + 1 ∧
    (runWrapped (labelAdd (labelAdd ls a) b) st).2.labelCalls =
      st.labelCalls ++ ls ++ [a, b] := by
  have h₁ : labelAdd ls a = ls ++ [a] := by simp [labelAdd, ha]
  have h₂ : labelAdd (labelAdd ls a) a = labelAdd ls a := by
    rw [h₁]
    simp [labelAdd]
  refine ⟨h₂, ?_, ?_⟩
  · rw [h₂, h₁]
    simp [runWrapped, List.count_append,
      List.count_eq_zero_of_not_mem ha]
  · have hbnotin : b ∉ ls ++ [a] := by
      intro hmem₂
      rcases List.mem_append.mp hmem₂ with h₃ | h₃
      · exact hb h₃
      · exact hab (List.mem_singleton.mp h₃).symm
    have h₃ : labelAdd (labelAdd ls a) b = ls ++ [a] ++ [b] := by
      rw [h₁]
      simp [labelAdd, hbnotin]
    rw [h₃]
    simp [runWrapped]

/-- C9 witness: a previously unlabeled definition, label x attached twice
and then label y attached. -/
theorem label_attach_semantics_witness :
    ("x" : String) ∉ ([] : List String) ∧
    ("y" : String) ∉ ([] : List String) ∧
    ("x" : String) ≠ "y" ∧
    (labelAdd (labelAdd [] "x") "x" = labelAdd [] "x" ∧
     (runWrapped (labelAdd (labelAdd [] "x") "x")
         initResolveState).2.labelCalls.count "x" =
       initResolveState.labelCalls.count "x" + 1 ∧
     (runWrapped (labelAdd (labelAdd [] "x") "y")
         initResolveState).2.labelCalls =
       initResolveState.labelCalls ++ [] ++ ["x", "y"]) :=
  ⟨by decide, by decide, by decide,
   label_attach_semantics [] "x" "y" initResolveState
     (by decide) (by decide) (by decide)⟩

/-- C10: tagging never consults the definitions Map: for every container
state and every service id, including ids with no definition, a
well-formed tagSpec is recorded successfully and its payload is visible
through getTag, while addLabel on an unregistered id raises the
service-not-defined error. -/
theorem tag_ignores_registration (c : CState) (sid : String) (spec : TagSpec)
    (t : Tag) (hspec : normalizeTag spec = .ok t) :
    tagService c sid spec = .ok ⟨c.defs, applyTag c.tags sid t⟩ ∧
    lookupTags (applyTag c.tags sid t) t.name sid =
      lookupTags c.tags t.name sid ++ [t] ∧
    (c.defs.lookup sid = none →
      ∀ l, addLabel c sid l = .error (svcNotDefined sid)) := by
  refine ⟨by simp [tagService, tagOne, hspec, Except.map],
    lookupTags_applyTag c.tags sid t, ?_⟩
  intro hnone l
  simp [addLabel, getDefinition, hnone, Except.map]

/-- C10 witness: tagging an id that has no definition in an otherwise
empty container succeeds and is visible, while addLabel on it errors. -/
theorem tag_ignores_registration_witness :
    normalizeTag (TagSpec.str "x") = .ok ⟨"x", []⟩ ∧
    (tagService ⟨[], []⟩ "ghost" (TagSpec.str "x") =
        .ok ⟨[], applyTag [] "ghost" ⟨"x", []⟩⟩ ∧
     lookupTags (applyTag [] "ghost" ⟨"x", []⟩) "x" "ghost" =
        lookupTags [] "x" "ghost" ++ [⟨"x", []⟩] ∧
     (((⟨[], []⟩ : CState).defs.lookup "ghost" = none) →
       ∀ l, addLabel ⟨[], []⟩ "ghost" l = .error (svcNotDefined "ghost"))) :=
  ⟨rfl, tag_ignores_registration ⟨[], []⟩ "ghost" (TagSpec.str "x") ⟨"x", []⟩ rfl⟩

end Pimple
